import Mathlib

/-!
Verification development for the PredictionScope content-production agent.

The TypeScript sources are shallowly embedded here:

* `agent/observe.ts`   — market data model and `detectMovers`;
* `agent/analyze.ts`   — the `ContentOpportunity` record (the scoring call
  itself is an external capability and is not modelled);
* `agent/decide.ts`    — score filtering, per-bucket target counts, and the
  two-phase quota allocator `decide`;
* `agent/index.ts`     — the per-assignment generation loop with its
  try/catch partial-failure handling, the decision-log entry, and
  `saveSnapshot` (modelled as its file-system effect trace);
* `agent/submit.ts`    — `getContentPath`, `writeDraft`/`updateInventory`
  bookkeeping, and the `submit` effect trace.

JavaScript numbers are modelled as exact rationals (`ℚ`).  Because the
library's rational arithmetic is `@[irreducible]`, the embedding computes
with small kernel-reducible wrappers (`qadd`, `qmul`, `qsub`, `qabs`)
that are proved equal to the standard operations, so that concrete runs
of the embedded code can be evaluated by `decide`.
-/

namespace PredictionScope

/-! ### Kernel-computable rational arithmetic -/

/-- Addition on `ℚ` via `mkRat`; kernel-reducible, equal to `a + b`. -/
def qadd (a b : ℚ) : ℚ := mkRat (a.num * b.den + b.num * a.den) (a.den * b.den)

/-- Multiplication on `ℚ` via `mkRat`; kernel-reducible, equal to `a * b`. -/
def qmul (a b : ℚ) : ℚ := mkRat (a.num * b.num) (a.den * b.den)

/-- Subtraction on `ℚ` via `mkRat`; kernel-reducible, equal to `a - b`. -/
def qsub (a b : ℚ) : ℚ := mkRat (a.num * b.den - b.num * a.den) (a.den * b.den)

/-- Absolute value on `ℚ` via `mkRat`; kernel-reducible, equal to `|a|`. -/
def qabs (a : ℚ) : ℚ := mkRat a.num.natAbs a.den

theorem qadd_eq (a b : ℚ) : qadd a b = a + b := by
  rw [qadd, Rat.mkRat_eq_div]
  have ha : ((a.den : ℚ)) ≠ 0 := by exact_mod_cast a.den_nz
  have hb : ((b.den : ℚ)) ≠ 0 := by exact_mod_cast b.den_nz
  conv_rhs => rw [← Rat.num_div_den a, ← Rat.num_div_den b]
  push_cast
  field_simp

theorem qmul_eq (a b : ℚ) : qmul a b = a * b := by
  rw [qmul, Rat.mkRat_eq_div]
  have ha : ((a.den : ℚ)) ≠ 0 := by exact_mod_cast a.den_nz
  have hb : ((b.den : ℚ)) ≠ 0 := by exact_mod_cast b.den_nz
  conv_rhs => rw [← Rat.num_div_den a, ← Rat.num_div_den b]
  push_cast
  field_simp

theorem qsub_eq (a b : ℚ) : qsub a b = a - b := by
  rw [qsub, Rat.mkRat_eq_div]
  have ha : ((a.den : ℚ)) ≠ 0 := by exact_mod_cast a.den_nz
  have hb : ((b.den : ℚ)) ≠ 0 := by exact_mod_cast b.den_nz
  conv_rhs => rw [← Rat.num_div_den a, ← Rat.num_div_den b]
  push_cast
  field_simp
  ring

theorem qabs_eq (a : ℚ) : qabs a = |a| := by
  rw [qabs, Rat.mkRat_eq_div]
  conv_rhs => rw [← Rat.num_div_den a]
  rw [abs_div]
  have hd : |((a.den : ℚ))| = (a.den : ℚ) := abs_of_pos (by exact_mod_cast a.pos)
  rw [hd]
  congr 1
  push_cast [Int.cast_natAbs]
  rfl

theorem qabs_qsub_eq (a b : ℚ) : qabs (qsub a b) = |a - b| := by
  rw [qsub_eq, qabs_eq]

/-! ### Data model of `agent/observe.ts` -/

/-- The two market platforms (`'kalshi' | 'polymarket'`). -/
inductive Platform
  | kalshi
  | polymarket
deriving DecidableEq

/-- String form of a platform, as used for the mover-detection map key. -/
def platformKey : Platform → String
  | .kalshi => "kalshi"
  | .polymarket => "polymarket"

/-- `MarketData` from `agent/observe.ts`. -/
structure MarketData where
  id : String
  title : String
  category : String
  platform : Platform
  yes_price : ℚ
  volume : ℚ
  end_date : Option String
  url : String
deriving DecidableEq

/-- The `(platform, id)` identity key used by `detectMovers`
(the template string literal with a colon separator). -/
def marketKey (m : MarketData) : String :=
  platformKey m.platform ++ ":" ++ m.id

/-- Lookup of a market's counterpart in the previous snapshot.
`detectMovers` builds a JavaScript `Map` from the key/value pairs of
`previousSnapshot`; when keys repeat, the last entry wins, so the lookup
is a search from the end of the list. -/
def previousFor (previousSnapshot : List MarketData) (m : MarketData) :
    Option MarketData :=
  previousSnapshot.reverse.find? (fun p => marketKey p == marketKey m)

/-- `detectMovers` from `agent/observe.ts`: with no previous snapshot,
no movers; otherwise keep the current items whose price moved by strictly
more than `0.10` against their previous counterpart. -/
def detectMovers (currentMarkets : List MarketData)
    (previousSnapshot : Option (List MarketData)) : List MarketData :=
  match previousSnapshot with
  | none => []
  | some prev =>
    currentMarkets.filter (fun m =>
      match previousFor prev m with
      | none => false
      | some p => Decidable.decide (mkRat 1 10 < qabs (qsub m.yes_price p.yes_price)))

/-! ### Data model of `agent/analyze.ts` -/

/-- The three content buckets (`'educational' | 'topical' | 'affiliate'`). -/
inductive Bucket
  | educational
  | topical
  | affiliate
deriving DecidableEq

/-- `ContentOpportunity` from `agent/analyze.ts`. -/
structure ContentOpportunity where
  title : String
  slug : String
  bucket : Bucket
  category : String
  targetKeyword : String
  secondaryKeywords : List String
  score : ℚ
  reasoning : String
  relevantMarkets : List MarketData
deriving DecidableEq

/-! ### `agent/decide.ts` -/

/-- The per-bucket weights of `DecisionConfig`. -/
structure BucketWeights where
  educational : ℚ
  topical : ℚ
  affiliate : ℚ
deriving DecidableEq

/-- `DecisionConfig` from `agent/decide.ts` (the caller merges partial
configs with `DEFAULT_CONFIG`, so `decide` always sees a full config). -/
structure DecisionConfig where
  maxArticles : ℕ
  bucketWeights : BucketWeights
  minScore : ℚ
deriving DecidableEq

/-- `DEFAULT_CONFIG` from `agent/decide.ts`; the float literals `0.5`,
`0.35`, `0.15`, `0.3` are modelled as exact rationals. -/
def DEFAULT_CONFIG : DecisionConfig :=
  { maxArticles := 3
  , bucketWeights :=
      { educational := mkRat 1 2
      , topical := mkRat 35 100
      , affiliate := mkRat 15 100 }
  , minScore := mkRat 3 10 }

/-- JavaScript `Math.round`: the closest integer, halves toward positive
infinity, i.e. `⌊x + 1/2⌋`.  Implemented with the kernel-reducible
wrappers so that concrete targets evaluate by `decide`. -/
def jsRound (q : ℚ) : ℤ := (qadd q (mkRat 1 2)).floor

/-- JavaScript `Math.max` on integers. -/
def jsMax (a b : ℤ) : ℤ := if a ≤ b then b else a

/-- The `targetCounts` object computed by `decide` (lines 47-51): per-bucket
target = `max(floor, round(maxArticles * weight))` with floor 1 for
educational and 0 otherwise.  Targets are natural numbers (the `toNat`
is harmless: `jsMax` has already clamped from below by `1` resp. `0`). -/
structure TargetCounts where
  educational : ℕ
  topical : ℕ
  affiliate : ℕ
deriving DecidableEq

def targetCounts (maxArticles : ℕ) (w : BucketWeights) : TargetCounts :=
  { educational := (jsMax 1 (jsRound (qmul (mkRat maxArticles 1) w.educational))).toNat
  , topical := (jsMax 0 (jsRound (qmul (mkRat maxArticles 1) w.topical))).toNat
  , affiliate := (jsMax 0 (jsRound (qmul (mkRat maxArticles 1) w.affiliate))).toNat }

/-- The comparator `(a, b) => b.score - a.score` sorts by score descending;
JavaScript's sort is stable, so ties keep input order.  Opportunities are
tagged with their input index because JavaScript compares objects by
reference (`selected.includes(o)`), and two field-identical opportunities
in one batch are still distinct objects. -/
def scoreGe (x y : ℕ × ContentOpportunity) : Prop := y.2.score ≤ x.2.score

instance : DecidableRel scoreGe :=
  fun x y => inferInstanceAs (Decidable (y.2.score ≤ x.2.score))

/-- The `viable` list of `decide` (line 39): opportunities with
`score >= minScore`, tagged with their input index. -/
def viableOf (opportunities : List ContentOpportunity) (minScore : ℚ) :
    List (ℕ × ContentOpportunity) :=
  opportunities.enum.filter (fun o => Decidable.decide (minScore ≤ o.2.score))

/-- The sorted per-bucket candidate list of Phase A (lines 59-61). -/
def bucketOppsOf (viable : List (ℕ × ContentOpportunity)) (b : Bucket) :
    List (ℕ × ContentOpportunity) :=
  List.insertionSort scoreGe (viable.filter (fun o => o.2.bucket == b))

/-- The inner Phase A loop (lines 64-69): walk the sorted bucket
candidates, stopping when the bucket's target or the global
`maxArticles` cap is reached. -/
def fillBucket : List (ℕ × ContentOpportunity) → ℕ → ℕ → ℕ →
    List (ℕ × ContentOpportunity) → List (ℕ × ContentOpportunity)
  | [], _, _, _, selected => selected
  | o :: rest, bucketCount, target, maxArticles, selected =>
    if target ≤ bucketCount then selected
    else if maxArticles ≤ selected.length then selected
    else fillBucket rest (bucketCount + 1) target maxArticles (selected ++ [o])

/-- Phase A (lines 57-70): fill each bucket up to its target, in the fixed
priority order educational, topical, affiliate, sharing the `selected`
accumulator; each bucket's own counter starts at `0`. -/
def phaseA (viable : List (ℕ × ContentOpportunity)) (targets : TargetCounts)
    (maxArticles : ℕ) : List (ℕ × ContentOpportunity) :=
  let s1 := fillBucket (bucketOppsOf viable .educational) 0 targets.educational maxArticles []
  let s2 := fillBucket (bucketOppsOf viable .topical) 0 targets.topical maxArticles s1
  fillBucket (bucketOppsOf viable .affiliate) 0 targets.affiliate maxArticles s2

/-- The `remaining` list of Phase B (lines 74-76): viable opportunities not
yet selected (object identity, hence index comparison), sorted by score
descending. -/
def remainingOf (viable selected : List (ℕ × ContentOpportunity)) :
    List (ℕ × ContentOpportunity) :=
  List.insertionSort scoreGe
    (viable.filter (fun o => !(selected.any (fun q => q.1 == o.1))))

/-- The Phase B loop (lines 78-81): fill with the highest-scoring remaining
candidates until the cap is reached. -/
def fillRemaining : List (ℕ × ContentOpportunity) → ℕ →
    List (ℕ × ContentOpportunity) → List (ℕ × ContentOpportunity)
  | [], _, selected => selected
  | o :: rest, maxArticles, selected =>
    if maxArticles ≤ selected.length then selected
    else fillRemaining rest maxArticles (selected ++ [o])

/-- `decide` from `agent/decide.ts`: filter by `minScore`, fill per-bucket
targets (Phase A), then spill over by score (Phase B).  Returns the
selected opportunities (the index tags are internal bookkeeping for
JavaScript reference identity and are dropped at the end). -/
def decide (opportunities : List ContentOpportunity) (cfg : DecisionConfig) :
    List ContentOpportunity :=
  let viable := viableOf opportunities cfg.minScore
  if viable.length = 0 then []
  else
    let targets := targetCounts cfg.maxArticles cfg.bucketWeights
    let selectedA := phaseA viable targets cfg.maxArticles
    let selected :=
      if selectedA.length < cfg.maxArticles then
        fillRemaining (remainingOf viable selectedA) cfg.maxArticles selectedA
      else selectedA
    selected.map Prod.snd

/-- Count of selected items from one bucket. -/
def countBucket (l : List ContentOpportunity) (b : Bucket) : ℕ :=
  (l.filter (fun o => o.bucket == b)).length

/-! ### `agent/create.ts` and the generation loop of `agent/index.ts` -/

/-- `DraftArticle` from `agent/create.ts`.  Note that `bucket` is a plain
string there (unlike `ContentOpportunity.bucket`). -/
structure DraftArticle where
  slug : String
  bucket : String
  category : String
  content : String
  title : String
  targetKeyword : String
  wordCount : ℕ
deriving DecidableEq

/-- The Step-4 generation loop of `agent/index.ts` (lines 90-99): call
`create` per assignment inside try/catch; a failure is logged and skipped,
the loop continues with the remaining assignments.  The external
generation call is a parameter: `some` is a produced draft, `none` a
thrown error. -/
def runGeneration (gen : ContentOpportunity → Option DraftArticle) :
    List ContentOpportunity → List DraftArticle
  | [] => []
  | assignment :: rest =>
    match gen assignment with
    | some draft => draft :: runGeneration gen rest
    | none => runGeneration gen rest

/-- One item of `logEntry.selected` in `agent/index.ts`. -/
structure SelectedSummary where
  title : String
  bucket : Bucket
  score : ℚ
deriving DecidableEq

/-- One item of `logEntry.produced` in `agent/index.ts`. -/
structure ProducedSummary where
  slug : String
  bucket : String
  wordCount : ℕ
deriving DecidableEq

/-- The observation counts recorded in the decision log. -/
structure ObservationCounts where
  kalshiMarkets : ℕ
  polymarketMarkets : ℕ
  movers : ℕ
  trends : ℕ
deriving DecidableEq

/-- The audit record appended per run (`logEntry`, lines 119-139 of
`agent/index.ts`).  `elapsedSeconds` is modelled as a rational. -/
structure DecisionLogEntry where
  timestamp : String
  observations : ObservationCounts
  opportunities : ℕ
  selected : List SelectedSummary
  produced : List ProducedSummary
  elapsedSeconds : ℚ
deriving DecidableEq

/-- Construction of the decision-log entry from the run's data, as in
`agent/index.ts` lines 119-139. -/
def mkLogEntry (timestamp : String) (observations : ObservationCounts)
    (opportunities : List ContentOpportunity)
    (assignments : List ContentOpportunity)
    (drafts : List DraftArticle) (elapsedSeconds : ℚ) : DecisionLogEntry :=
  { timestamp := timestamp
  , observations := observations
  , opportunities := opportunities.length
  , selected := assignments.map (fun a => ⟨a.title, a.bucket, a.score⟩)
  , produced := drafts.map (fun d => ⟨d.slug, d.bucket, d.wordCount⟩)
  , elapsedSeconds := elapsedSeconds }

/-- Appending the run's entry to `data/decisions.json` (lines 142-152). -/
def appendDecisionLog (logs : List DecisionLogEntry) (entry : DecisionLogEntry) :
    List DecisionLogEntry :=
  logs ++ [entry]

/-! ### `agent/submit.ts` -/

/-- One entry of `data/inventory.json` as pushed by `updateInventory`
(lines 120-129 of `agent/submit.ts`).  `createdAt` is the caller-supplied
current time (`new Date().toISOString()`). -/
structure LedgerEntry where
  slug : String
  title : String
  bucket : String
  category : String
  targetKeyword : String
  wordCount : ℕ
  status : String
  createdAt : String
deriving DecidableEq

/-- The inventory entry built from one produced article. -/
def mkLedgerEntry (article : DraftArticle) (now : String) : LedgerEntry :=
  { slug := article.slug
  , title := article.title
  , bucket := article.bucket
  , category := article.category
  , targetKeyword := article.targetKeyword
  , wordCount := article.wordCount
  , status := "draft"
  , createdAt := now }

/-- `updateInventory` from `agent/submit.ts` (lines 104-135): fold the
produced articles over the stored inventory; an article whose slug is
already present is skipped, otherwise its entry is pushed at the end.
The single `writeFileSync` of the merged inventory happens afterwards. -/
def updateInventory (inventory : List LedgerEntry)
    (articles : List DraftArticle) (now : String) : List LedgerEntry :=
  match articles with
  | [] => inventory
  | article :: rest =>
    if inventory.any (fun item => item.slug == article.slug) then
      updateInventory inventory rest now
    else
      updateInventory (inventory ++ [mkLedgerEntry article now]) rest now

/-- The `bucketDir` record lookup with its `|| 'site/content/markets'`
fallback (lines 77-82). -/
def bucketDir (bucket : String) : String :=
  if bucket == "educational" then "site/content/learn"
  else if bucket == "topical" then "site/content/markets"
  else if bucket == "affiliate" then "site/content/best"
  else "site/content/markets"

/-- `getContentPath` from `agent/submit.ts`: the deterministic content path
for an article; topical articles with a nonempty category get a category
subdirectory (JavaScript truthiness of `article.category`). -/
def getContentPath (article : DraftArticle) : String :=
  let dir := bucketDir article.bucket
  if article.bucket == "topical" && !(article.category == "") then
    dir ++ "/" ++ article.category ++ "/" ++ article.slug ++ ".md"
  else
    dir ++ "/" ++ article.slug ++ ".md"

/-- The durable-state mutations of one `submit` run, in order. -/
inductive SubmitEvent
  | writeContent (path : String) (content : String)
  | writeLedger (entries : List LedgerEntry)
deriving DecidableEq

/-- Whether an event is the ledger (inventory) write. -/
def SubmitEvent.isLedgerWrite : SubmitEvent → Bool
  | .writeContent _ _ => false
  | .writeLedger _ => true

/-- The file-system writes performed by `submit` (lines 294-316): first
`writeDraft` per article (a `writeFileSync` at `getContentPath`), then
`updateInventory`, whose single `writeFileSync` rewrites the whole merged
inventory once.  The git/PR/notification steps that follow touch no
durable pipeline state and are not part of the trace. -/
def submitTrace (inventory : List LedgerEntry)
    (articles : List DraftArticle) (now : String) : List SubmitEvent :=
  (articles.map (fun a => SubmitEvent.writeContent (getContentPath a) a.content))
    ++ [SubmitEvent.writeLedger (updateInventory inventory articles now)]

/-! ### `saveSnapshot` from `agent/index.ts` -/

/-- File-system effects relevant to snapshot persistence. -/
inductive FsEvent
  | mkdir (path : String)
  | writeFile (path : String)
  | rename (src : String) (dst : String)
deriving DecidableEq

/-- Whether an effect is an atomic rename. -/
def FsEvent.isRename : FsEvent → Bool
  | .rename _ _ => true
  | _ => false

/-- The effect trace of `saveSnapshot` (lines 27-30 of `agent/index.ts`):
`mkdirSync('data')` then one direct `writeFileSync` to the final snapshot
path.  The serialized payload is immaterial to the claims and omitted
from the event. -/
def saveSnapshotTrace (markets : List MarketData) : List FsEvent :=
  match markets with
  | _ => [FsEvent.mkdir "data", FsEvent.writeFile "data/market-snapshot.json"]

/-! ### Allocator lemmas -/

theorem fillBucket_eq (l : List (ℕ × ContentOpportunity)) :
    ∀ (cnt target maxA : ℕ) (sel : List (ℕ × ContentOpportunity)),
    fillBucket l cnt target maxA sel =
      sel ++ l.take (min (target - cnt) (maxA - sel.length)) := by
  induction l with
  | nil => intro cnt target maxA sel; simp [fillBucket]
  | cons o rest ih =>
    intro cnt target maxA sel
    rw [fillBucket]
    by_cases h1 : target ≤ cnt
    · rw [if_pos h1]
      have : target - cnt = 0 := Nat.sub_eq_zero_of_le h1
      simp [this]
    · rw [if_neg h1]
      by_cases h2 : maxA ≤ sel.length
      · rw [if_pos h2]
        have : maxA - sel.length = 0 := Nat.sub_eq_zero_of_le h2
        simp [this]
      · rw [if_neg h2, ih]
        have hk : min (target - cnt) (maxA - sel.length) =
            min (target - (cnt + 1)) (maxA - (sel.length + 1)) + 1 := by omega
        rw [List.length_append, List.length_singleton, hk, List.take_succ_cons,
          List.append_assoc, List.singleton_append]

theorem fillRemaining_length (l : List (ℕ × ContentOpportunity)) :
    ∀ (maxA : ℕ) (sel : List (ℕ × ContentOpportunity)),
    (fillRemaining l maxA sel).length =
      max sel.length (min maxA (sel.length + l.length)) := by
  induction l with
  | nil =>
    intro maxA sel
    rw [fillRemaining]
    simp only [List.length_nil]
    omega
  | cons o rest ih =>
    intro maxA sel
    rw [fillRemaining]
    by_cases h : maxA ≤ sel.length
    · rw [if_pos h]
      simp only [List.length_cons]
      omega
    · rw [if_neg h, ih, List.length_append, List.length_singleton,
        List.length_cons]
      omega

theorem fillBucket_length_le (l : List (ℕ × ContentOpportunity)) :
    ∀ (cnt target maxA : ℕ) (sel : List (ℕ × ContentOpportunity)),
    sel.length ≤ maxA → (fillBucket l cnt target maxA sel).length ≤ maxA := by
  induction l with
  | nil => intro cnt target maxA sel hsel; rw [fillBucket]; exact hsel
  | cons o rest ih =>
    intro cnt target maxA sel hsel
    rw [fillBucket]
    by_cases h1 : target ≤ cnt
    · rw [if_pos h1]; exact hsel
    · rw [if_neg h1]
      by_cases h2 : maxA ≤ sel.length
      · rw [if_pos h2]; exact hsel
      · rw [if_neg h2]
        refine ih _ _ _ _ ?_
        rw [List.length_append, List.length_singleton]
        omega

theorem mem_bucketOppsOf {v : List (ℕ × ContentOpportunity)} {b : Bucket}
    {x : ℕ × ContentOpportunity} :
    x ∈ bucketOppsOf v b ↔ x ∈ v ∧ x.2.bucket = b := by
  rw [bucketOppsOf, (List.perm_insertionSort scoreGe _).mem_iff]
  simp [List.mem_filter]

theorem nodup_fst_viableOf (opps : List ContentOpportunity) (minScore : ℚ) :
    ((viableOf opps minScore).map Prod.fst).Nodup := by
  have hsub : ((viableOf opps minScore).map Prod.fst).Sublist
      (opps.enum.map Prod.fst) :=
    (List.filter_sublist _).map Prod.fst
  refine hsub.nodup ?_
  rw [List.enum_map_fst]
  exact List.nodup_range _

/-- `fst`-injectivity over a list with nodup keys. -/
theorem key_inj {v : List (ℕ × ContentOpportunity)}
    (hv : (v.map Prod.fst).Nodup) :
    ∀ x ∈ v, ∀ y ∈ v, x.1 = y.1 → x = y :=
  List.inj_on_of_nodup_map hv

theorem nodup_fst_bucketOppsOf {v : List (ℕ × ContentOpportunity)}
    (hv : (v.map Prod.fst).Nodup) (b : Bucket) :
    ((bucketOppsOf v b).map Prod.fst).Nodup := by
  have hperm : ((bucketOppsOf v b).map Prod.fst).Perm
      ((v.filter (fun o => o.2.bucket == b)).map Prod.fst) :=
    (List.perm_insertionSort scoreGe _).map Prod.fst
  rw [hperm.nodup_iff]
  exact ((List.filter_sublist v).map Prod.fst).nodup hv

theorem nodup_fst_take {l : List (ℕ × ContentOpportunity)}
    (h : (l.map Prod.fst).Nodup) (n : ℕ) :
    ((l.take n).map Prod.fst).Nodup := by
  rw [List.map_take]
  exact (List.take_sublist n _).nodup h

theorem mem_take_bucketOppsOf {v : List (ℕ × ContentOpportunity)} {b : Bucket}
    {n : ℕ} {x : ℕ × ContentOpportunity} (hx : x ∈ (bucketOppsOf v b).take n) :
    x ∈ v ∧ x.2.bucket = b :=
  mem_bucketOppsOf.mp (List.mem_of_mem_take hx)

/-- The three Phase A segments have pairwise distinct keys because keys are
unique within `v` and the segments carry distinct bucket values. -/
theorem nodup_fst_append_of_buckets {v T₁ T₂ : List (ℕ × ContentOpportunity)}
    {b₁ b₂ : Bucket} (hv : (v.map Prod.fst).Nodup)
    (h₁ : ∀ x ∈ T₁, x ∈ v ∧ x.2.bucket = b₁)
    (h₂ : ∀ x ∈ T₂, x ∈ v ∧ x.2.bucket = b₂)
    (nd₁ : (T₁.map Prod.fst).Nodup) (nd₂ : (T₂.map Prod.fst).Nodup)
    (hb : b₁ ≠ b₂) :
    ((T₁ ++ T₂).map Prod.fst).Nodup := by
  rw [List.map_append, List.nodup_append]
  refine ⟨nd₁, nd₂, ?_⟩
  intro k hk1 hk2
  obtain ⟨x, hxT, hxk⟩ := List.mem_map.mp hk1
  obtain ⟨y, hyT, hyk⟩ := List.mem_map.mp hk2
  have hxy : x = y :=
    key_inj hv x (h₁ x hxT).1 y (h₂ y hyT).1 (by rw [hxk, hyk])
  exact hb ((h₁ x hxT).2 ▸ hxy ▸ (h₂ y hyT).2)

/-- Any Phase A shaped selection (take-segments of the three sorted bucket
lists) draws from `v` and has nodup keys. -/
theorem phaseA_parts (v : List (ℕ × ContentOpportunity))
    (hv : (v.map Prod.fst).Nodup) (n₁ n₂ n₃ : ℕ) :
    (∀ x ∈ (bucketOppsOf v Bucket.educational).take n₁ ++
        (bucketOppsOf v Bucket.topical).take n₂ ++
        (bucketOppsOf v Bucket.affiliate).take n₃, x ∈ v) ∧
    (((bucketOppsOf v Bucket.educational).take n₁ ++
        (bucketOppsOf v Bucket.topical).take n₂ ++
        (bucketOppsOf v Bucket.affiliate).take n₃).map Prod.fst).Nodup := by
  have hE := nodup_fst_bucketOppsOf hv Bucket.educational
  have hT := nodup_fst_bucketOppsOf hv Bucket.topical
  have hA := nodup_fst_bucketOppsOf hv Bucket.affiliate
  set T₁ := (bucketOppsOf v Bucket.educational).take n₁ with hT₁
  set T₂ := (bucketOppsOf v Bucket.topical).take n₂ with hT₂
  set T₃ := (bucketOppsOf v Bucket.affiliate).take n₃ with hT₃
  have m₁ : ∀ x ∈ T₁, x ∈ v ∧ x.2.bucket = Bucket.educational :=
    fun x hx => mem_take_bucketOppsOf hx
  have m₂ : ∀ x ∈ T₂, x ∈ v ∧ x.2.bucket = Bucket.topical :=
    fun x hx => mem_take_bucketOppsOf hx
  have m₃ : ∀ x ∈ T₃, x ∈ v ∧ x.2.bucket = Bucket.affiliate :=
    fun x hx => mem_take_bucketOppsOf hx
  constructor
  · intro x hx
    rcases List.mem_append.mp hx with hx' | hx'
    · rcases List.mem_append.mp hx' with hx'' | hx''
      · exact (m₁ x hx'').1
      · exact (m₂ x hx'').1
    · exact (m₃ x hx').1
  · have nd₁ : (T₁.map Prod.fst).Nodup := nodup_fst_take hE _
    have nd₂ : (T₂.map Prod.fst).Nodup := nodup_fst_take hT _
    have nd₃ : (T₃.map Prod.fst).Nodup := nodup_fst_take hA _
    have nd₁₂ : ((T₁ ++ T₂).map Prod.fst).Nodup :=
      nodup_fst_append_of_buckets hv m₁ m₂ nd₁ nd₂ (by intro h; cases h)
    have m₁₂ : ∀ x ∈ T₁ ++ T₂, x ∈ v ∧
        (x.2.bucket = Bucket.educational ∨ x.2.bucket = Bucket.topical) := by
      intro x hx
      rcases List.mem_append.mp hx with hx' | hx'
      · exact ⟨(m₁ x hx').1, Or.inl (m₁ x hx').2⟩
      · exact ⟨(m₂ x hx').1, Or.inr (m₂ x hx').2⟩
    rw [List.map_append, List.nodup_append]
    refine ⟨nd₁₂, nd₃, ?_⟩
    intro k hk1 hk2
    obtain ⟨x, hxT, hxk⟩ := List.mem_map.mp hk1
    obtain ⟨y, hyT, hyk⟩ := List.mem_map.mp hk2
    have hxy : x = y :=
      key_inj hv x (m₁₂ x hxT).1 y (m₃ y hyT).1 (by rw [hxk, hyk])
    rcases (m₁₂ x hxT).2 with hbx | hbx <;>
      · rw [hxy, (m₃ y hyT).2] at hbx; cases hbx

/-- Properties of the Phase A output: its elements come from `v`, its keys
are nodup, and its length is at most the cap. -/
theorem phaseA_spec (v : List (ℕ × ContentOpportunity)) (tc : TargetCounts)
    (maxA : ℕ) (hv : (v.map Prod.fst).Nodup) :
    (∀ x ∈ phaseA v tc maxA, x ∈ v) ∧
    ((phaseA v tc maxA).map Prod.fst).Nodup ∧
    (phaseA v tc maxA).length ≤ maxA := by
  have hlen : (phaseA v tc maxA).length ≤ maxA := by
    rw [phaseA]
    refine fillBucket_length_le _ _ _ _ _
      (fillBucket_length_le _ _ _ _ _
        (fillBucket_length_le _ _ _ _ _ ?_))
    simp
  refine ⟨?_, ?_, hlen⟩
  · rw [phaseA]
    simp only [fillBucket_eq, List.nil_append]
    exact (phaseA_parts v hv _ _ _).1
  · rw [phaseA]
    simp only [fillBucket_eq, List.nil_append]
    exact (phaseA_parts v hv _ _ _).2

/-- Length of the Phase B candidate pool: keys missing from `selected`. -/
theorem length_remainingOf {v S : List (ℕ × ContentOpportunity)}
    (hv : (v.map Prod.fst).Nodup) (hS : (S.map Prod.fst).Nodup)
    (hsub : ∀ x ∈ S, x ∈ v) :
    (remainingOf v S).length = v.length - S.length ∧ S.length ≤ v.length := by
  have hvnd : v.Nodup := List.Nodup.of_map Prod.fst hv
  have hSnd : S.Nodup := List.Nodup.of_map Prod.fst hS
  have hmem : ∀ x : ℕ × ContentOpportunity,
      (S.any (fun q => q.1 == x.1) = true) ↔ ∃ s ∈ S, s.1 = x.1 := by
    intro x
    simp [List.any_eq_true]
  have hperm : (v.filter (fun o => S.any (fun q => q.1 == o.1))).Perm S := by
    refine (List.perm_ext_iff_of_nodup (hvnd.filter _) hSnd).mpr ?_
    intro a
    rw [List.mem_filter]
    constructor
    · rintro ⟨hav, hpred⟩
      obtain ⟨s, hsS, hsk⟩ := (hmem a).mp hpred
      have : s = a := key_inj hv s (hsub s hsS) a hav hsk
      exact this ▸ hsS
    · intro haS
      exact ⟨hsub a haS, (hmem a).mpr ⟨a, haS, rfl⟩⟩
  have hflen : (v.filter (fun o => S.any (fun q => q.1 == o.1))).length
      = S.length := hperm.length_eq
  have hsplit : v.length = (v.filter (fun o => S.any (fun q => q.1 == o.1))).length
      + (v.filter (fun o => !(S.any (fun q => q.1 == o.1)))).length :=
    List.length_eq_length_filter_add _
  have hrem : (remainingOf v S).length =
      (v.filter (fun o => !(S.any (fun q => q.1 == o.1)))).length := by
    rw [remainingOf]
    exact (List.perm_insertionSort scoreGe _).length_eq
  constructor
  · rw [hrem]; omega
  · have := List.length_filter_le (fun o => S.any (fun q => q.1 == o.1)) v
    omega

/-- The selection size identity of the allocator: `decide` always returns
exactly `min maxArticles |viable|` items. -/
theorem decide_length (opportunities : List ContentOpportunity)
    (cfg : DecisionConfig) :
    (decide opportunities cfg).length =
      min cfg.maxArticles (viableOf opportunities cfg.minScore).length := by
  rw [decide]
  have hv : ((viableOf opportunities cfg.minScore).map Prod.fst).Nodup :=
    nodup_fst_viableOf _ _
  by_cases h0 : (viableOf opportunities cfg.minScore).length = 0
  · rw [if_pos h0, h0]
    simp
  · rw [if_neg h0]
    dsimp only
    obtain ⟨hsub, hSnd, hSle⟩ :=
      phaseA_spec (viableOf opportunities cfg.minScore)
        (targetCounts cfg.maxArticles cfg.bucketWeights) cfg.maxArticles hv
    obtain ⟨hrem, hSv⟩ := length_remainingOf hv hSnd hsub
    by_cases hlt : (phaseA (viableOf opportunities cfg.minScore)
        (targetCounts cfg.maxArticles cfg.bucketWeights)
        cfg.maxArticles).length < cfg.maxArticles
    · rw [if_pos hlt, List.length_map, fillRemaining_length, hrem]
      omega
    · rw [if_neg hlt, List.length_map]
      omega

/-! ### Counting lemmas for `countBucket` -/

theorem countBucket_append (l₁ l₂ : List ContentOpportunity) (b : Bucket) :
    countBucket (l₁ ++ l₂) b = countBucket l₁ b + countBucket l₂ b := by
  simp [countBucket, List.filter_append]

theorem countBucket_all {l : List ContentOpportunity} {b : Bucket}
    (h : ∀ o ∈ l, o.bucket = b) : countBucket l b = l.length := by
  rw [countBucket, List.filter_eq_self.mpr]
  intro o ho
  simp [h o ho]

theorem countBucket_none {l : List ContentOpportunity} {b : Bucket}
    (h : ∀ o ∈ l, o.bucket ≠ b) : countBucket l b = 0 := by
  rw [countBucket, List.length_eq_zero, List.filter_eq_nil_iff]
  intro o ho
  simp [h o ho]

theorem length_bucketOppsOf (v : List (ℕ × ContentOpportunity)) (b : Bucket) :
    (bucketOppsOf v b).length =
      (v.filter (fun o => o.2.bucket == b)).length :=
  (List.perm_insertionSort scoreGe _).length_eq

/-! ### Inventory (Ledger) lemmas -/

theorem any_slug_iff (inventory : List LedgerEntry) (s : String) :
    (inventory.any (fun item => item.slug == s) = true) ↔
      s ∈ inventory.map LedgerEntry.slug := by
  rw [List.any_eq_true]
  constructor
  · rintro ⟨e, he, hs⟩
    exact List.mem_map.mpr ⟨e, he, by simpa using hs⟩
  · intro hmem
    obtain ⟨e, he, rfl⟩ := List.mem_map.mp hmem
    exact ⟨e, he, by simp⟩

/-- Structure of one `updateInventory` run: the stored inventory is kept
as an unmodified prefix, and the appended entries are fresh, mutually
distinct by slug, come from the batch, and cover every batch slug. -/
theorem updateInventory_spec (now : String) :
    ∀ (articles : List DraftArticle) (inventory : List LedgerEntry),
    ∃ new : List LedgerEntry,
      updateInventory inventory articles now = inventory ++ new ∧
      (∀ e ∈ new, e.slug ∉ inventory.map LedgerEntry.slug) ∧
      ((new.map LedgerEntry.slug).Nodup) ∧
      (∀ e ∈ new, ∃ a ∈ articles, e = mkLedgerEntry a now) ∧
      (∀ a ∈ articles,
        a.slug ∈ (inventory ++ new).map LedgerEntry.slug) := by
  intro articles
  induction articles with
  | nil =>
    intro inventory
    exact ⟨[], by simp [updateInventory], by simp, by simp, by simp, by simp⟩
  | cons a rest ih =>
    intro inventory
    rw [updateInventory]
    by_cases hdup : inventory.any (fun item => item.slug == a.slug) = true
    · rw [if_pos hdup]
      obtain ⟨new, heq, hfresh, hnd, horig, hcover⟩ := ih inventory
      refine ⟨new, heq, hfresh, hnd, ?_, ?_⟩
      · intro e he
        obtain ⟨a', ha', he'⟩ := horig e he
        exact ⟨a', List.mem_cons_of_mem _ ha', he'⟩
      · intro a' ha'
        rcases List.mem_cons.mp ha' with rfl | ha''
        · rw [List.map_append]
          exact List.mem_append_left _ ((any_slug_iff _ _).mp hdup)
        · exact hcover a' ha''
    · rw [if_neg hdup]
      obtain ⟨new, heq, hfresh, hnd, horig, hcover⟩ :=
        ih (inventory ++ [mkLedgerEntry a now])
      have hafresh : a.slug ∉ inventory.map LedgerEntry.slug := by
        intro hmem
        exact hdup ((any_slug_iff _ _).mpr hmem)
      refine ⟨mkLedgerEntry a now :: new, ?_, ?_, ?_, ?_, ?_⟩
      · rw [heq, List.append_assoc, List.singleton_append]
      · intro e he
        rcases List.mem_cons.mp he with rfl | he'
        · exact hafresh
        · intro hmem
          exact hfresh e he' (by rw [List.map_append]; exact List.mem_append_left _ hmem)
      · rw [List.map_cons, List.nodup_cons]
        refine ⟨?_, hnd⟩
        intro hmem
        obtain ⟨e, he, hes⟩ := List.mem_map.mp hmem
        refine hfresh e he ?_
        rw [List.map_append]
        refine List.mem_append_right _ ?_
        simp [mkLedgerEntry, hes]
      · intro e he
        rcases List.mem_cons.mp he with rfl | he'
        · exact ⟨a, List.mem_cons_self _ _, rfl⟩
        · obtain ⟨a', ha', he''⟩ := horig e he'
          exact ⟨a', List.mem_cons_of_mem _ ha', he''⟩
      · intro a' ha'
        rcases List.mem_cons.mp ha' with rfl | ha''
        · rw [List.map_append]
          refine List.mem_append_right _ ?_
          simp [mkLedgerEntry]
        · have hthis := hcover a' ha''
          simp only [List.map_append, List.map_cons, List.map_nil,
            List.mem_append, List.mem_cons, List.not_mem_nil, or_false] at hthis ⊢
          tauto

/-- Once a slug is present, later `updateInventory` folds never change the
set of entries carrying it. -/
theorem updateInventory_filter_of_mem (now : String) (s : String) :
    ∀ (articles : List DraftArticle) (inventory : List LedgerEntry),
    s ∈ inventory.map LedgerEntry.slug →
    (updateInventory inventory articles now).filter (fun e => e.slug == s) =
      inventory.filter (fun e => e.slug == s) := by
  intro articles
  induction articles with
  | nil => intro inventory _; rw [updateInventory]
  | cons a rest ih =>
    intro inventory hs
    rw [updateInventory]
    by_cases hdup : inventory.any (fun item => item.slug == a.slug) = true
    · rw [if_pos hdup]
      exact ih inventory hs
    · rw [if_neg hdup]
      have hafresh : a.slug ∉ inventory.map LedgerEntry.slug := by
        intro hmem
        exact hdup ((any_slug_iff _ _).mpr hmem)
      have hane : a.slug ≠ s := fun h => hafresh (h ▸ hs)
      rw [ih (inventory ++ [mkLedgerEntry a now])
        (by rw [List.map_append]; exact List.mem_append_left _ hs)]
      rw [List.filter_append]
      have : ([mkLedgerEntry a now].filter (fun e => e.slug == s)) = [] := by
        simp [mkLedgerEntry, hane]
      rw [this, List.append_nil]

/-- For a slug absent from the stored inventory, the entries carrying it
after `updateInventory` are exactly one entry built from the first batch
article with that slug (or none when no such article exists). -/
theorem updateInventory_filter_of_fresh (now : String) (s : String) :
    ∀ (articles : List DraftArticle) (inventory : List LedgerEntry),
    s ∉ inventory.map LedgerEntry.slug →
    (updateInventory inventory articles now).filter (fun e => e.slug == s) =
      (match articles.find? (fun a => a.slug == s) with
       | none => []
       | some a => [mkLedgerEntry a now]) := by
  intro articles
  induction articles with
  | nil =>
    intro inventory hs
    rw [updateInventory, List.find?_nil]
    rw [List.filter_eq_nil_iff]
    intro e he hslug
    exact hs (List.mem_map.mpr ⟨e, he, by simpa using hslug⟩)
  | cons a rest ih =>
    intro inventory hs
    rw [updateInventory]
    by_cases hdup : inventory.any (fun item => item.slug == a.slug) = true
    · rw [if_pos hdup]
      have hane : a.slug ≠ s := fun h => hs (h ▸ (any_slug_iff _ _).mp hdup)
      rw [List.find?_cons_of_neg _ (by simp [hane]), ih inventory hs]
    · rw [if_neg hdup]
      by_cases haeq : a.slug = s
      · rw [List.find?_cons_of_pos _ (by simp [haeq])]
        rw [updateInventory_filter_of_mem now s rest
          (inventory ++ [mkLedgerEntry a now])
          (by rw [List.map_append]; refine List.mem_append_right _ ?_;
              simp [mkLedgerEntry, haeq])]
        rw [List.filter_append]
        have h1 : inventory.filter (fun e => e.slug == s) = [] := by
          rw [List.filter_eq_nil_iff]
          intro e he hslug
          exact hs (List.mem_map.mpr ⟨e, he, by simpa using hslug⟩)
        have h2 : ([mkLedgerEntry a now].filter (fun e => e.slug == s)) =
            [mkLedgerEntry a now] := by
          simp [mkLedgerEntry, haeq]
        rw [h1, h2, List.nil_append]
      · rw [List.find?_cons_of_neg _ (by simp [haeq])]
        refine ih (inventory ++ [mkLedgerEntry a now]) ?_
        rw [List.map_append]
        intro hmem
        rcases List.mem_append.mp hmem with h' | h'
        · exact hs h'
        · simp [mkLedgerEntry] at h'
          exact haeq h'.symm

/-! ### Sample data used by witnesses and counterexamples -/

/-- Builder for a sample opportunity (the fields not inspected by the
allocator are filled with fixed data). -/
def sampleOpp (title slug : String) (b : Bucket) (category : String)
    (score : ℚ) : ContentOpportunity :=
  ⟨title, slug, b, category, title, [], score, "", []⟩

def ex1LedgerSlugs : List String := ["what-is-a-prediction-market"]

def ex1Opp : ContentOpportunity :=
  sampleOpp "What Is a Prediction Market?" "what-is-a-prediction-market"
    Bucket.educational "learn" (mkRat 9 10)

def ex3Opps : List ContentOpportunity :=
  [ sampleOpp "E0" "e0" Bucket.educational "learn" (mkRat 1 1)
  , sampleOpp "E1" "e1" Bucket.educational "learn" (mkRat 7 10)
  , sampleOpp "E2" "e2" Bucket.educational "learn" (mkRat 1 5)
  , sampleOpp "T0" "t0" Bucket.topical "politics" (mkRat 2 5)
  , sampleOpp "A0" "a0" Bucket.affiliate "best" (mkRat 1 5)
  , sampleOpp "T1" "t1" Bucket.topical "economy" (mkRat 9 10)
  , sampleOpp "E3" "e3" Bucket.educational "learn" (mkRat 4 5) ]

def ex3Weights : BucketWeights := ⟨mkRat 3 4, 0, mkRat 1 10⟩

def ex4Opp : ContentOpportunity :=
  sampleOpp "How Odds Work" "how-odds-work" Bucket.educational "learn" (mkRat 4 5)

def ex5Opps : List ContentOpportunity :=
  [ sampleOpp "E1" "e1" Bucket.educational "learn" (mkRat 8 10)
  , sampleOpp "E2" "e2" Bucket.educational "learn" (mkRat 7 10)
  , sampleOpp "T1" "t1" Bucket.topical "politics" (mkRat 9 10) ]

def ex6Cur : MarketData :=
  ⟨"PRES-24", "Presidential market", "politics", Platform.kalshi,
    mkRat 62 100, 1000, none, "u1"⟩

def ex6Prev : MarketData :=
  ⟨"PRES-24", "Presidential market", "politics", Platform.kalshi,
    mkRat 50 100, 900, none, "u1"⟩

def ex6Lone : MarketData :=
  ⟨"NEW-25", "Fresh market", "economy", Platform.polymarket,
    mkRat 40 100, 7000, none, "u2"⟩

def ex2Gen (a : ContentOpportunity) : Option DraftArticle :=
  if a.slug == "a2" then none
  else some ⟨a.slug, "educational", "learn", "body", a.title, a.targetKeyword, 500⟩

def ex2A1 : ContentOpportunity :=
  sampleOpp "First" "a1" Bucket.educational "learn" (mkRat 8 10)

def ex2A2 : ContentOpportunity :=
  sampleOpp "Second" "a2" Bucket.educational "learn" (mkRat 7 10)

def ex2A3 : ContentOpportunity :=
  sampleOpp "Third" "a3" Bucket.educational "learn" (mkRat 6 10)

def ex2D1 : DraftArticle := ⟨"a1", "educational", "learn", "body", "First", "First", 500⟩

def ex2D3 : DraftArticle := ⟨"a3", "educational", "learn", "body", "Third", "Third", 500⟩

def ex7Entry : LedgerEntry :=
  ⟨"s0", "Old", "educational", "learn", "kw", 700, "draft", "2026-01-01"⟩

def ex7ArtDup : DraftArticle := ⟨"s0", "educational", "learn", "body", "Dup", "kw", 400⟩

def ex7ArtNew : DraftArticle := ⟨"s1", "topical", "politics", "body", "New", "kw2", 900⟩

def ex8Art : DraftArticle := ⟨"odds-watch", "topical", "politics", "body", "Odds", "kw", 800⟩

def ex10A : DraftArticle := ⟨"dup", "educational", "learn", "first body", "First", "kw", 500⟩

def ex10B : DraftArticle := ⟨"dup", "topical", "politics", "second body", "Second", "kw2", 600⟩

/-! ### Claims -/

/-- Claim C1, counterexample: the admission step of the code filters only
by score.  An opportunity whose slug is already in the Ledger but whose
score clears `minScore` passes admission (is in `viable`) and is even
selected by the allocator, for the default configuration. -/
theorem ledger_slug_admitted_counterexample :
    "what-is-a-prediction-market" ∈ ex1LedgerSlugs ∧
    DEFAULT_CONFIG.minScore ≤ ex1Opp.score ∧
    (0, ex1Opp) ∈ viableOf [ex1Opp] DEFAULT_CONFIG.minScore ∧
    ex1Opp ∈ decide [ex1Opp] DEFAULT_CONFIG := by
  decide

/-- Claim C1, amended: the deterministic admission step admits exactly the
opportunities with `score ≥ minScore`; Ledger slugs play no role in it
(the slug check is only requested from the external scorer through the
prompt, and re-enforced against the durable Ledger only at inventory
update time). -/
theorem admission_filters_on_score_only
    (opportunities : List ContentOpportunity) (minScore : ℚ) (i : ℕ)
    (o : ContentOpportunity) :
    (i, o) ∈ viableOf opportunities minScore ↔
      (i, o) ∈ opportunities.enum ∧ minScore ≤ o.score := by
  simp [viableOf, List.mem_filter]

/-- Claim C2: with three assignments where generation fails on the second
only, the run continues, exactly the two successful drafts are produced,
the inventory gains exactly their two ledger entries, and the decision-log
entry records one failure (one more selected assignment than produced
drafts). -/
theorem partial_failure_isolation
    (gen : ContentOpportunity → Option DraftArticle)
    (a₁ a₂ a₃ : ContentOpportunity) (d₁ d₃ : DraftArticle)
    (inventory : List LedgerEntry) (now ts : String)
    (obs : ObservationCounts) (opportunities : List ContentOpportunity)
    (el : ℚ)
    (h₁ : gen a₁ = some d₁) (h₂ : gen a₂ = none) (h₃ : gen a₃ = some d₃)
    (hs₁ : d₁.slug ∉ inventory.map LedgerEntry.slug)
    (hs₃ : d₃.slug ∉ inventory.map LedgerEntry.slug)
    (hne : d₁.slug ≠ d₃.slug) :
    runGeneration gen [a₁, a₂, a₃] = [d₁, d₃] ∧
    updateInventory inventory (runGeneration gen [a₁, a₂, a₃]) now =
      inventory ++ [mkLedgerEntry d₁ now, mkLedgerEntry d₃ now] ∧
    (mkLogEntry ts obs opportunities [a₁, a₂, a₃]
        (runGeneration gen [a₁, a₂, a₃]) el).selected.length =
      (mkLogEntry ts obs opportunities [a₁, a₂, a₃]
        (runGeneration gen [a₁, a₂, a₃]) el).produced.length + 1 := by
  have hrun : runGeneration gen [a₁, a₂, a₃] = [d₁, d₃] := by
    rw [runGeneration, h₁, runGeneration, h₂, runGeneration, h₃, runGeneration]
  have hc₁ : ¬(inventory.any (fun item => item.slug == d₁.slug) = true) :=
    fun h => hs₁ ((any_slug_iff _ _).mp h)
  have hc₃ : ¬((inventory ++ [mkLedgerEntry d₁ now]).any
      (fun item => item.slug == d₃.slug) = true) := by
    intro h
    have := (any_slug_iff _ _).mp h
    rw [List.map_append] at this
    rcases List.mem_append.mp this with h' | h'
    · exact hs₃ h'
    · simp [mkLedgerEntry] at h'
      exact hne h'.symm
  refine ⟨hrun, ?_, ?_⟩
  · rw [hrun, updateInventory, if_neg hc₁, updateInventory, if_neg hc₃,
      updateInventory, List.append_assoc]
    rfl
  · rw [hrun]
    simp [mkLogEntry]

/-- Claim C2, witness. -/
theorem partial_failure_isolation_witness :
    runGeneration ex2Gen [ex2A1, ex2A2, ex2A3] = [ex2D1, ex2D3] ∧
    updateInventory [] (runGeneration ex2Gen [ex2A1, ex2A2, ex2A3]) "t0" =
      [] ++ [mkLedgerEntry ex2D1 "t0", mkLedgerEntry ex2D3 "t0"] ∧
    (mkLogEntry "t0" ⟨10, 20, 2, 5⟩ [ex2A1, ex2A2, ex2A3] [ex2A1, ex2A2, ex2A3]
        (runGeneration ex2Gen [ex2A1, ex2A2, ex2A3]) 7).selected.length =
      (mkLogEntry "t0" ⟨10, 20, 2, 5⟩ [ex2A1, ex2A2, ex2A3] [ex2A1, ex2A2, ex2A3]
        (runGeneration ex2Gen [ex2A1, ex2A2, ex2A3]) 7).produced.length + 1 :=
  partial_failure_isolation ex2Gen ex2A1 ex2A2 ex2A3 ex2D1 ex2D3 [] "t0" "t0"
    ⟨10, 20, 2, 5⟩ [ex2A1, ex2A2, ex2A3] 7
    (by decide) (by decide) (by decide) (by decide) (by decide) (by decide)

/-- Claim C3, counterexample: raising `maxTotal` from 3 to 5 with fixed
admitted opportunities and weights drops the topical selection from 1 to
0, although topical still had an admitted candidate left unselected under
`maxTotal = 3` (2 viable topical candidates, 1 selected). -/
theorem quota_monotonicity_counterexample :
    3 ≤ 5 ∧
    1 < ((viableOf ex3Opps 0).filter
      (fun o => o.2.bucket == Bucket.topical)).length ∧
    countBucket (decide ex3Opps ⟨3, ex3Weights, 0⟩) Bucket.topical = 1 ∧
    countBucket (decide ex3Opps ⟨5, ex3Weights, 0⟩) Bucket.topical = 0 := by
  decide

/-- Claim C3, amended: for fixed opportunities, weights and score
threshold, increasing `maxTotal` never decreases the TOTAL number of
selected assignments; the per-category count can decrease even for a
category with remaining admitted candidates, because the Phase A targets
of earlier categories grow with `maxTotal` and displace Phase B
spillover picks. -/
theorem total_selection_monotone (opportunities : List ContentOpportunity)
    (cfg cfg' : DecisionConfig)
    (hm : cfg.maxArticles ≤ cfg'.maxArticles)
    (hw : cfg.bucketWeights = cfg'.bucketWeights)
    (hs : cfg.minScore = cfg'.minScore) :
    (decide opportunities cfg).length ≤ (decide opportunities cfg').length := by
  rw [decide_length, decide_length, hs]
  exact inf_le_inf_right _ hm

/-- Claim C3, amended, witness. -/
theorem total_selection_monotone_witness :
    (decide ex3Opps ⟨3, ex3Weights, 0⟩).length ≤
      (decide ex3Opps ⟨5, ex3Weights, 0⟩).length :=
  total_selection_monotone ex3Opps ⟨3, ex3Weights, 0⟩ ⟨5, ex3Weights, 0⟩
    (by decide) rfl rfl

/-- Claim C4: the allocator is total and returns exactly
`min maxTotal |viable|` assignments (`viable` being the opportunities at
or above `minScore`); in particular it returns nothing when no
opportunity is viable and everything viable when below the cap.  The
nonzero-weight hypothesis of the claim is not even needed. -/
theorem allocation_totality (opportunities : List ContentOpportunity)
    (cfg : DecisionConfig)
    (hw : cfg.bucketWeights.educational ≠ 0 ∨
      cfg.bucketWeights.topical ≠ 0 ∨ cfg.bucketWeights.affiliate ≠ 0) :
    (decide opportunities cfg).length =
      min cfg.maxArticles (viableOf opportunities cfg.minScore).length ∧
    ((viableOf opportunities cfg.minScore).length = 0 →
      decide opportunities cfg = []) ∧
    ((viableOf opportunities cfg.minScore).length ≤ cfg.maxArticles →
      (decide opportunities cfg).length =
        (viableOf opportunities cfg.minScore).length) := by
  refine ⟨decide_length _ _, ?_, ?_⟩
  · intro h0
    rw [decide, if_pos h0]
  · intro hle
    rw [decide_length]
    omega

/-- Claim C4, witness. -/
theorem allocation_totality_witness :
    (decide [ex4Opp] DEFAULT_CONFIG).length =
      min DEFAULT_CONFIG.maxArticles
        (viableOf [ex4Opp] DEFAULT_CONFIG.minScore).length ∧
    (decide [ex4Opp] DEFAULT_CONFIG).length =
      (viableOf [ex4Opp] DEFAULT_CONFIG.minScore).length :=
  ⟨(allocation_totality [ex4Opp] DEFAULT_CONFIG (Or.inl (by decide))).1,
   (allocation_totality [ex4Opp] DEFAULT_CONFIG (Or.inl (by decide))).2.2
     (by decide)⟩

/-- Claim C5, counterexample: with `maxTotal = 3` and the default weights,
the affiliate target is `round(3 × 0.15) = round(0.45) = 0`, not `1` as
the claim states. -/
theorem affiliate_target_counterexample :
    (targetCounts 3 DEFAULT_CONFIG.bucketWeights).affiliate = 0 ∧
    ¬((targetCounts 3 DEFAULT_CONFIG.bucketWeights).affiliate = 1) := by
  decide

/-- Claim C5, amended: with `maxTotal = 3` and weights
`{educational 0.5, topical 0.35, affiliate 0.15}` the computed targets are
educational 2, topical 1, affiliate 0 (not 1); given at least 2 viable
educational and 1 viable topical candidates, Phase A selects 2
educational and 1 topical, the cap is reached, and affiliate receives
nothing. -/
theorem example_scenario_allocation (opportunities : List ContentOpportunity)
    (minScore : ℚ)
    (h₂ : 2 ≤ ((viableOf opportunities minScore).filter
      (fun o => o.2.bucket == Bucket.educational)).length)
    (h₁ : 1 ≤ ((viableOf opportunities minScore).filter
      (fun o => o.2.bucket == Bucket.topical)).length) :
    targetCounts 3 DEFAULT_CONFIG.bucketWeights = ⟨2, 1, 0⟩ ∧
    countBucket (decide opportunities ⟨3, DEFAULT_CONFIG.bucketWeights,
      minScore⟩) Bucket.educational = 2 ∧
    countBucket (decide opportunities ⟨3, DEFAULT_CONFIG.bucketWeights,
      minScore⟩) Bucket.topical = 1 ∧
    countBucket (decide opportunities ⟨3, DEFAULT_CONFIG.bucketWeights,
      minScore⟩) Bucket.affiliate = 0 := by
  have htc : targetCounts 3 DEFAULT_CONFIG.bucketWeights = ⟨2, 1, 0⟩ := by
    decide
  have hE2 : 2 ≤ (bucketOppsOf (viableOf opportunities minScore)
      Bucket.educational).length := by
    rw [length_bucketOppsOf]; exact h₂
  have hT1 : 1 ≤ (bucketOppsOf (viableOf opportunities minScore)
      Bucket.topical).length := by
    rw [length_bucketOppsOf]; exact h₁
  have hEtake : ((bucketOppsOf (viableOf opportunities minScore)
      Bucket.educational).take 2).length = 2 := by
    rw [List.length_take]; omega
  have hTtake : ((bucketOppsOf (viableOf opportunities minScore)
      Bucket.topical).take 1).length = 1 := by
    rw [List.length_take]; omega
  have hv0 : ¬(viableOf opportunities minScore).length = 0 := by
    have := List.length_filter_le
      (fun o => o.2.bucket == Bucket.educational)
      (viableOf opportunities minScore)
    omega
  have s1 : fillBucket (bucketOppsOf (viableOf opportunities minScore)
      Bucket.educational) 0 2 3 [] =
      (bucketOppsOf (viableOf opportunities minScore)
        Bucket.educational).take 2 := by
    rw [fillBucket_eq, List.nil_append]
    congr 1
  have s2 : fillBucket (bucketOppsOf (viableOf opportunities minScore)
      Bucket.topical) 0 1 3
      ((bucketOppsOf (viableOf opportunities minScore)
        Bucket.educational).take 2) =
      (bucketOppsOf (viableOf opportunities minScore)
        Bucket.educational).take 2 ++
      (bucketOppsOf (viableOf opportunities minScore)
        Bucket.topical).take 1 := by
    rw [fillBucket_eq, hEtake]
    congr 1
  have s3 : fillBucket (bucketOppsOf (viableOf opportunities minScore)
      Bucket.affiliate) 0 0 3
      ((bucketOppsOf (viableOf opportunities minScore)
          Bucket.educational).take 2 ++
        (bucketOppsOf (viableOf opportunities minScore)
          Bucket.topical).take 1) =
      (bucketOppsOf (viableOf opportunities minScore)
        Bucket.educational).take 2 ++
      (bucketOppsOf (viableOf opportunities minScore)
        Bucket.topical).take 1 := by
    rw [fillBucket_eq]
    have hz : min (0 - 0)
        (3 - ((bucketOppsOf (viableOf opportunities minScore)
            Bucket.educational).take 2 ++
          (bucketOppsOf (viableOf opportunities minScore)
            Bucket.topical).take 1).length) = 0 := by
      omega
    rw [hz, List.take_zero, List.append_nil]
  have hphase : phaseA (viableOf opportunities minScore) ⟨2, 1, 0⟩ 3 =
      (bucketOppsOf (viableOf opportunities minScore)
        Bucket.educational).take 2 ++
      (bucketOppsOf (viableOf opportunities minScore)
        Bucket.topical).take 1 := by
    rw [phaseA]
    dsimp only
    rw [s1, s2, s3]
  have hnlt : ¬(((bucketOppsOf (viableOf opportunities minScore)
        Bucket.educational).take 2 ++
      (bucketOppsOf (viableOf opportunities minScore)
        Bucket.topical).take 1).length < 3) := by
    rw [List.length_append, hEtake, hTtake]
    omega
  have hdec : decide opportunities ⟨3, DEFAULT_CONFIG.bucketWeights,
      minScore⟩ =
      ((bucketOppsOf (viableOf opportunities minScore)
          Bucket.educational).take 2 ++
        (bucketOppsOf (viableOf opportunities minScore)
          Bucket.topical).take 1).map Prod.snd := by
    rw [decide]
    dsimp only
    rw [if_neg hv0, htc, hphase, if_neg hnlt]
  have hmemE : ∀ o ∈ ((bucketOppsOf (viableOf opportunities minScore)
      Bucket.educational).take 2).map Prod.snd,
      o.bucket = Bucket.educational := by
    intro o ho
    obtain ⟨x, hx, rfl⟩ := List.mem_map.mp ho
    exact (mem_take_bucketOppsOf hx).2
  have hmemT : ∀ o ∈ ((bucketOppsOf (viableOf opportunities minScore)
      Bucket.topical).take 1).map Prod.snd,
      o.bucket = Bucket.topical := by
    intro o ho
    obtain ⟨x, hx, rfl⟩ := List.mem_map.mp ho
    exact (mem_take_bucketOppsOf hx).2
  refine ⟨htc, ?_, ?_, ?_⟩
  · rw [hdec, List.map_append, countBucket_append,
      countBucket_all hmemE,
      countBucket_none (fun o ho => by rw [hmemT o ho]; intro h; cases h),
      List.length_map, hEtake]
  · rw [hdec, List.map_append, countBucket_append,
      countBucket_none (fun o ho => by rw [hmemE o ho]; intro h; cases h),
      countBucket_all hmemT, List.length_map, hTtake]
  · rw [hdec, List.map_append, countBucket_append,
      countBucket_none (fun o ho => by rw [hmemE o ho]; intro h; cases h),
      countBucket_none (fun o ho => by rw [hmemT o ho]; intro h; cases h)]

/-- Claim C5, amended, witness. -/
theorem example_scenario_allocation_witness :
    targetCounts 3 DEFAULT_CONFIG.bucketWeights = ⟨2, 1, 0⟩ ∧
    countBucket (decide ex5Opps ⟨3, DEFAULT_CONFIG.bucketWeights,
      mkRat 3 10⟩) Bucket.educational = 2 ∧
    countBucket (decide ex5Opps ⟨3, DEFAULT_CONFIG.bucketWeights,
      mkRat 3 10⟩) Bucket.topical = 1 ∧
    countBucket (decide ex5Opps ⟨3, DEFAULT_CONFIG.bucketWeights,
      mkRat 3 10⟩) Bucket.affiliate = 0 :=
  example_scenario_allocation ex5Opps (mkRat 3 10) (by decide) (by decide)

/-- Claim C6: for a current item whose `(platform, id)` key has a
counterpart in the previous snapshot, the mover detector reports it
exactly when the absolute price change strictly exceeds the `0.10`
threshold (so a change of exactly the threshold is not reported), and an
item with no counterpart is never reported. -/
theorem mover_threshold_spec :
    (∀ (current previous : List MarketData) (m p : MarketData),
      m ∈ current → previousFor previous m = some p →
      (m ∈ detectMovers current (some previous) ↔
        mkRat 1 10 < |m.yes_price - p.yes_price|)) ∧
    (∀ (current previous : List MarketData) (m : MarketData),
      previousFor previous m = none →
      m ∉ detectMovers current (some previous)) := by
  constructor
  · intro current previous m p hm hp
    rw [detectMovers, List.mem_filter, hp]
    simp [hm, qabs_qsub_eq]
  · intro current previous m hp
    rw [detectMovers]
    intro hmem
    have h := (List.mem_filter.mp hmem).2
    rw [hp] at h
    cases h

/-- Claim C6, witness: a 12-cent move is reported, and an item absent from
the previous snapshot is not. -/
theorem mover_threshold_spec_witness :
    (ex6Cur ∈ detectMovers [ex6Cur] (some [ex6Prev]) ↔
      mkRat 1 10 < |ex6Cur.yes_price - ex6Prev.yes_price|) ∧
    ex6Lone ∉ detectMovers [ex6Lone] (some [ex6Prev]) :=
  ⟨mover_threshold_spec.1 [ex6Cur] [ex6Prev] ex6Cur ex6Prev (by decide)
    (by decide),
   mover_threshold_spec.2 [ex6Lone] [ex6Prev] ex6Lone (by decide)⟩

/-- Claim C7: `updateInventory` preserves slug uniqueness, never deletes
or modifies a stored entry (the stored inventory is an unchanged prefix
of the result), and adds or overwrites nothing for a slug that already
exists. -/
theorem ledger_update_preserves (inventory : List LedgerEntry)
    (articles : List DraftArticle) (now : String)
    (hnd : (inventory.map LedgerEntry.slug).Nodup) :
    ((updateInventory inventory articles now).map LedgerEntry.slug).Nodup ∧
    (updateInventory inventory articles now).take inventory.length =
      inventory ∧
    (∀ s ∈ inventory.map LedgerEntry.slug,
      (updateInventory inventory articles now).filter
          (fun e => e.slug == s) =
        inventory.filter (fun e => e.slug == s)) := by
  obtain ⟨new, heq, hfresh, hndnew, _, _⟩ :=
    updateInventory_spec now articles inventory
  refine ⟨?_, ?_, ?_⟩
  · rw [heq, List.map_append, List.nodup_append]
    refine ⟨hnd, hndnew, ?_⟩
    intro s hs hsnew
    obtain ⟨e, he, rfl⟩ := List.mem_map.mp hsnew
    exact hfresh e he hs
  · rw [heq, List.take_left]
  · intro s hs
    exact updateInventory_filter_of_mem now s articles inventory hs

/-- Claim C7, witness. -/
theorem ledger_update_preserves_witness :
    ((updateInventory [ex7Entry] [ex7ArtDup, ex7ArtNew] "t1").map
      LedgerEntry.slug).Nodup ∧
    (updateInventory [ex7Entry] [ex7ArtDup, ex7ArtNew] "t1").take 1 =
      [ex7Entry] ∧
    (updateInventory [ex7Entry] [ex7ArtDup, ex7ArtNew] "t1").filter
        (fun e => e.slug == "s0") =
      ([ex7Entry] : List LedgerEntry).filter (fun e => e.slug == "s0") :=
  ⟨(ledger_update_preserves [ex7Entry] [ex7ArtDup, ex7ArtNew] "t1"
      (by decide)).1,
   (ledger_update_preserves [ex7Entry] [ex7ArtDup, ex7ArtNew] "t1"
      (by decide)).2.1,
   (ledger_update_preserves [ex7Entry] [ex7ArtDup, ex7ArtNew] "t1"
      (by decide)).2.2 "s0" (by decide)⟩

/-- Claim C8: in every `submit` run, every produced artifact's content is
written at its deterministic `getContentPath` strictly before the single
whole-batch Ledger write, the trace contains exactly one Ledger write,
and that rewritten Ledger covers the slug of every article of the
batch. -/
theorem submit_content_before_ledger (inventory : List LedgerEntry)
    (articles : List DraftArticle) (now : String) :
    (∀ (i : ℕ) (es : List LedgerEntry),
      (submitTrace inventory articles now)[i]? =
        some (SubmitEvent.writeLedger es) →
      ∀ (j : ℕ) (p c : String),
        (submitTrace inventory articles now)[j]? =
          some (SubmitEvent.writeContent p c) → j < i) ∧
    ((submitTrace inventory articles now).filter
        (fun e => SubmitEvent.isLedgerWrite e)).length = 1 ∧
    (∀ a ∈ articles,
      SubmitEvent.writeContent (getContentPath a) a.content ∈
        submitTrace inventory articles now) ∧
    (∀ a ∈ articles,
      a.slug ∈ (updateInventory inventory articles now).map
        LedgerEntry.slug) := by
  obtain ⟨new, heq, _, _, _, hcover⟩ :=
    updateInventory_spec now articles inventory
  have hmaplen : (articles.map (fun a =>
      SubmitEvent.writeContent (getContentPath a) a.content)).length =
      articles.length := List.length_map _ _
  refine ⟨?_, ?_, ?_, ?_⟩
  · intro i es hi j p c hj
    have hilen : i = articles.length := by
      by_contra hne
      rcases Nat.lt_or_ge i articles.length with hlt | hge
      · rw [submitTrace, List.getElem?_append_left (by omega)] at hi
        rw [List.getElem?_map] at hi
        cases hmap : articles[i]? with
        | none => rw [hmap] at hi; cases hi
        | some a => rw [hmap] at hi; cases hi
      · have hgt : articles.length < i := by omega
        rw [submitTrace, List.getElem?_append_right (by omega)] at hi
        rw [hmaplen] at hi
        rw [List.getElem?_eq_none (by simp; omega)] at hi
        cases hi
    subst hilen
    by_contra hge
    have hj' : articles.length ≤ j := by omega
    rw [submitTrace, List.getElem?_append_right (by omega)] at hj
    rw [hmaplen] at hj
    rcases Nat.eq_or_lt_of_le hj' with heqj | hltj
    · rw [← heqj, Nat.sub_self] at hj
      cases hj
    · rw [List.getElem?_eq_none (by simp; omega)] at hj
      cases hj
  · rw [submitTrace, List.filter_append]
    have h1 : (articles.map (fun a =>
        SubmitEvent.writeContent (getContentPath a) a.content)).filter
        (fun e => SubmitEvent.isLedgerWrite e) = [] := by
      rw [List.filter_eq_nil_iff]
      intro e he
      obtain ⟨a, _, rfl⟩ := List.mem_map.mp he
      simp [SubmitEvent.isLedgerWrite]
    rw [h1, List.nil_append]
    rfl
  · intro a ha
    rw [submitTrace]
    exact List.mem_append_left _
      (List.mem_map.mpr ⟨a, ha, rfl⟩)
  · intro a ha
    rw [heq]
    exact hcover a ha

/-- Claim C8, witness. -/
theorem submit_content_before_ledger_witness :
    (0 : ℕ) < 1 ∧
    ((submitTrace [] [ex8Art] "t2").filter
        (fun e => SubmitEvent.isLedgerWrite e)).length = 1 ∧
    SubmitEvent.writeContent (getContentPath ex8Art) ex8Art.content ∈
      submitTrace [] [ex8Art] "t2" ∧
    ex8Art.slug ∈ (updateInventory [] [ex8Art] "t2").map
      LedgerEntry.slug :=
  ⟨(submit_content_before_ledger [] [ex8Art] "t2").1 1
      [mkLedgerEntry ex8Art "t2"] (by decide) 0 (getContentPath ex8Art)
      ex8Art.content (by decide),
   (submit_content_before_ledger [] [ex8Art] "t2").2.1,
   (submit_content_before_ledger [] [ex8Art] "t2").2.2.1 ex8Art (by decide),
   (submit_content_before_ledger [] [ex8Art] "t2").2.2.2 ex8Art (by decide)⟩

/-- Claim C9 (code bug): `saveSnapshot` performs a single direct
`writeFileSync` to the final snapshot path; there is no temporary file
and no rename, so the write is not the claimed atomic
write-to-temp-then-rename replacement. -/
theorem saveSnapshot_no_rename (markets : List MarketData) :
    saveSnapshotTrace markets =
      [FsEvent.mkdir "data", FsEvent.writeFile "data/market-snapshot.json"] ∧
    (saveSnapshotTrace markets).all (fun e => !(FsEvent.isRename e)) = true := by
  exact ⟨rfl, rfl⟩

/-- Claim C10: when a batch contains two or more articles with the same
slug (not yet in the inventory), `updateInventory` adds exactly one entry
for that slug, built from the first such article in batch order. -/
theorem duplicate_slug_first_wins (inventory : List LedgerEntry)
    (batch : List DraftArticle) (now s : String) (a : DraftArticle)
    (hfresh : s ∉ inventory.map LedgerEntry.slug)
    (hfind : batch.find? (fun a' => a'.slug == s) = some a)
    (h2 : 2 ≤ (batch.filter (fun a' => a'.slug == s)).length) :
    (updateInventory inventory batch now).filter (fun e => e.slug == s) =
      [mkLedgerEntry a now] := by
  rw [updateInventory_filter_of_fresh now s batch inventory hfresh, hfind]

/-- Claim C10, witness: two same-slug articles in one batch yield exactly
one entry, carrying the first article's metadata. -/
theorem duplicate_slug_first_wins_witness :
    (updateInventory [] [ex10A, ex10B] "t3").filter
        (fun e => e.slug == "dup") =
      [mkLedgerEntry ex10A "t3"] :=
  duplicate_slug_first_wins [] [ex10A, ex10B] "t3" "dup" ex10A
    (by decide) (by decide) (by decide)

end PredictionScope
